import Mathlib

/-!
Verification of the request-component grammar parser (src/parser.rs) and the
path-addressed JSON tree builder (src/json_builder.rs) of the `get` CLI.

The parser is a shallow embedding of the nom-based recursive-descent parser:
inputs are `List Char`, each nom combinator is modelled as a function
returning `Option (result × remainder)`, and `alt` tries alternatives in
order on the original input.  The builder is a shallow embedding of
`put_value`/`build` over an inductive JSON value type.
-/

namespace GetRs

instance {ε α : Type} [DecidableEq ε] [DecidableEq α] : DecidableEq (Except ε α) := fun x y =>
  match x, y with
  | Except.ok a, Except.ok b =>
    if h : a = b then Decidable.isTrue (by rw [h]) else
      Decidable.isFalse (by intro hc; cases hc; exact h rfl)
  | Except.ok _, Except.error _ => Decidable.isFalse (by intro hc; cases hc)
  | Except.error _, Except.ok _ => Decidable.isFalse (by intro hc; cases hc)
  | Except.error e, Except.error f =>
    if h : e = f then Decidable.isTrue (by rw [h]) else
      Decidable.isFalse (by intro hc; cases hc; exact h rfl)

/-- JSON values, modelling `serde_json::Value`.  Object members are kept in
insertion order; numbers are restricted to integers (no claim in this
development concerns numeric JSON values, which only arise from raw-JSON
fragment bodies). -/
inductive Json where
| null
| bool (b : Bool)
| num (n : Int)
| str (s : String)
| arr (elems : List Json)
| obj (members : List (String × Json))

/-- `PathAccess` from src/json_builder.rs. -/
inductive PathAccess where
| ObjectKey (key : String)
| ArrayIndex (index : Nat)
| ArrayEnd
deriving DecidableEq, Repr

/-- `BodyValue` from src/parser.rs: a literal-string or raw-JSON body fragment. -/
inductive BodyValue where
| string (path : List PathAccess) (value : String)
| json (path : List PathAccess) (value : String)
deriving DecidableEq, Repr

/-- `RequestComponent` from src/parser.rs. -/
inductive RequestComponent where
| queryParam (name value : String)
| header (key value : String)
| bodyValue (v : BodyValue)
deriving DecidableEq, Repr

/-! ### nom combinator primitives -/

/-- `nom::bytes::complete::tag`: match an exact prefix, return the remainder. -/
def tagP : List Char → List Char → Option (List Char)
| [], s => some s
| _ :: _, [] => none
| t :: ts, c :: cs => if c = t then tagP ts cs else none

/-- `nom::bytes::complete::take_while1`: longest (possibly improper) prefix of
characters satisfying `p`; fails when that prefix is empty. -/
def takeWhile1 (p : Char → Bool) : List Char → Option (List Char × List Char)
| [] => none
| c :: cs => if p c then some ((c :: cs).takeWhile p, (c :: cs).dropWhile p) else none

/-- Decimal value of a digit run. -/
def digitsVal (ds : List Char) : Nat :=
  ds.foldl (fun a c => a * 10 + (c.toNat - 48)) 0

def U32_MAX : Nat := 4294967295

/-- `nom::character::complete::u32`: one or more decimal digits; fails when the
run's value overflows a `u32` (nom accumulates with checked arithmetic and
errors on overflow, which is equivalent to bounding the full run's value). -/
def parseU32 (s : List Char) : Option (Nat × List Char) :=
  match takeWhile1 Char.isDigit s with
  | none => none
  | some (ds, rest) => if digitsVal ds ≤ U32_MAX then some (digitsVal ds, rest) else none

/-- `nom::branch::alt` for two alternatives: try `a`, on failure try `b` on the
same input. -/
def altO {α : Type} (a b : Option α) : Option α :=
  match a with
  | some x => some x
  | none => b

/-! ### Path-accessor segment parsers (src/parser.rs lines 118-143) -/

/-- Characters allowed in a bare (unbracketed) object key:
`|c| c != '.' && c != '[' && c != '=' && c != ':'`. -/
def rawKeyChar (c : Char) : Bool :=
  !(c == '.' || c == '\x5b' || c == '=' || c == ':')

/-- `array_index`: `alt((delimited(tag("["), u32, tag("]")), preceded(tag("."), u32), u32))`. -/
def array_index (s : List Char) : Option (PathAccess × List Char) :=
  altO
    (match tagP ['\x5b'] s with
     | none => none
     | some s1 =>
       match parseU32 s1 with
       | none => none
       | some (n, s2) =>
         match tagP ['\x5d'] s2 with
         | none => none
         | some s3 => some (PathAccess.ArrayIndex n, s3))
    (altO
      (match tagP ['.'] s with
       | none => none
       | some s1 =>
         match parseU32 s1 with
         | none => none
         | some (n, s2) => some (PathAccess.ArrayIndex n, s2))
      (match parseU32 s with
       | none => none
       | some (n, s2) => some (PathAccess.ArrayIndex n, s2)))

/-- `object_key`: `alt((delimited(tag("["), take_while1(!=']'), tag("]")), preceded(tag("."), raw), raw))`
where `raw = take_while1(rawKeyChar)`. -/
def object_key (s : List Char) : Option (PathAccess × List Char) :=
  altO
    (match tagP ['\x5b'] s with
     | none => none
     | some s1 =>
       match takeWhile1 (fun c => !(c == '\x5d')) s1 with
       | none => none
       | some (k, s2) =>
         match tagP ['\x5d'] s2 with
         | none => none
         | some s3 => some (PathAccess.ObjectKey (String.mk k), s3))
    (altO
      (match tagP ['.'] s with
       | none => none
       | some s1 =>
         match takeWhile1 rawKeyChar s1 with
         | none => none
         | some (k, s2) => some (PathAccess.ObjectKey (String.mk k), s2))
      (match takeWhile1 rawKeyChar s with
       | none => none
       | some (k, s2) => some (PathAccess.ObjectKey (String.mk k), s2)))

/-- `array_end`: `tag("[]")`. -/
def array_end (s : List Char) : Option (PathAccess × List Char) :=
  match tagP ['\x5b', '\x5d'] s with
  | none => none
  | some rest => some (PathAccess.ArrayEnd, rest)

/-- One iteration of `alt((array_index, object_key, array_end))`. -/
def parseSegment (s : List Char) : Option (PathAccess × List Char) :=
  altO (array_index s) (altO (object_key s) (array_end s))

/-- Fuel-indexed body of `many0(alt((array_index, object_key, array_end)))`:
collect segments until the segment parser fails.  Every segment consumes at
least one character, so fuel `s.length` is always sufficient. -/
def manySegAux : Nat → List Char → List PathAccess × List Char
| 0, s => ([], s)
| Nat.succ fuel, s =>
  match parseSegment s with
  | none => ([], s)
  | some (a, rest) =>
    match manySegAux fuel rest with
    | (as1, s2) => (a :: as1, s2)

/-- `many0(alt((array_index, object_key, array_end)))`. -/
def manySegments (s : List Char) : List PathAccess × List Char :=
  manySegAux s.length s

/-! ### Component parsers (src/parser.rs lines 81-190) -/

/-- `body`: segments, then `alt((value(true, tag(":=")), value(false, tag("="))))`;
the input remaining after the matched tag becomes the fragment's value, and the
parser reports an empty remainder. -/
def body (s : List Char) : Option (RequestComponent × List Char) :=
  match manySegments s with
  | (path, s1) =>
    match tagP [':', '='] s1 with
    | some rest => some (RequestComponent.bodyValue (BodyValue.json path (String.mk rest)), [])
    | none =>
      match tagP ['='] s1 with
      | some rest => some (RequestComponent.bodyValue (BodyValue.string path (String.mk rest)), [])
      | none => none

/-- `query_param`: `separated_pair(take_while1(!='='), tag("=="), take_while1(|_| true))`. -/
def query_param (s : List Char) : Option (RequestComponent × List Char) :=
  match takeWhile1 (fun c => !(c == '=')) s with
  | none => none
  | some (name, s1) =>
    match tagP ['=', '='] s1 with
    | none => none
    | some s2 =>
      match takeWhile1 (fun _ => true) s2 with
      | none => none
      | some (v, s3) => some (RequestComponent.queryParam (String.mk name) (String.mk v), s3)

/-- `header_name`'s character predicate, exactly as written in the source:
`('A'..'Z').contains(&c) || ('a'..'z').contains(&c) || ('0'..'9').contains(&c) || c == '_' || c == '-'`.
Rust `Range` bounds are half-open, so the upper endpoints are excluded. -/
def headerNameChar (c : Char) : Bool :=
  (decide ('A' ≤ c) && decide (c < 'Z')) ||
  (decide ('a' ≤ c) && decide (c < 'z')) ||
  (decide ('0' ≤ c) && decide (c < '9')) ||
  c == '_' || c == '-'

/-- `header`: `separated_pair(header_name, tag(":"), take_while1(|_| true))`. -/
def header (s : List Char) : Option (RequestComponent × List Char) :=
  match takeWhile1 headerNameChar s with
  | none => none
  | some (name, s1) =>
    match tagP [':'] s1 with
    | none => none
    | some s2 =>
      match takeWhile1 (fun _ => true) s2 with
      | none => none
      | some (v, s3) => some (RequestComponent.header (String.mk name) (String.mk v), s3)

/-- `parse_component` on a character list: `alt((query_param, body, header))`,
then demand an empty remainder. -/
def parse_component_chars (s : List Char) : Except String RequestComponent :=
  match altO (query_param s) (altO (body s) (header s)) with
  | some (c, rest) =>
    if rest = [] then Except.ok c else Except.error "Remainder found in request component"
  | none => Except.error "Invalid request component"

/-- `parse_component` from src/parser.rs. -/
def parse_component (s : String) : Except String RequestComponent :=
  parse_component_chars s.data

/-! ### JSON tree builder (src/json_builder.rs) -/

/-- `Value::is_null`. -/
def Json.isNull : Json → Bool
| Json.null => true
| _ => false

/-- `Value::as_object_mut().is_some()`. -/
def Json.isObj : Json → Bool
| Json.obj _ => true
| _ => false

/-- `Value::as_array_mut().is_some()`. -/
def Json.isArr : Json → Bool
| Json.arr _ => true
| _ => false

/-- `serde_json::Map` lookup. -/
def lookupKey (k : String) : List (String × Json) → Option Json
| [] => none
| (k1, v1) :: rest => if k1 = k then some v1 else lookupKey k rest

/-- The effect on the member list of `obj.entry(key).or_insert(null)` followed by
in-place mutation of that entry to `r`: replace the value at `k` when present,
append `(k, r)` otherwise.  (Member order only affects serialization of
multi-member objects, which no theorem below depends on.) -/
def objInsert (k : String) (r : Json) : List (String × Json) → List (String × Json)
| [] => [(k, r)]
| (k1, v1) :: rest => if k1 = k then (k, r) :: rest else (k1, v1) :: objInsert k r rest

/-- `put_value` from src/json_builder.rs. -/
def put_value : Json → List PathAccess → Json → Except String Json
| _, [], v => Except.ok v
| root, PathAccess.ObjectKey k :: rest, v =>
  match (if root.isNull then Json.obj [] else root) with
  | Json.obj kvs =>
    match put_value ((lookupKey k kvs).getD Json.null) rest v with
    | Except.ok r => Except.ok (Json.obj (objInsert k r kvs))
    | Except.error e => Except.error e
  | _ => Except.error "expect object root"
| root, PathAccess.ArrayIndex i :: rest, v =>
  match (if root.isNull then Json.arr [] else root) with
  | Json.arr elems =>
    let elems2 := if elems.length ≤ i then elems ++ List.replicate (i + 1 - elems.length) Json.null else elems
    match put_value (elems2.getD i Json.null) rest v with
    | Except.ok r => Except.ok (Json.arr (elems2.set i r))
    | Except.error e => Except.error e
  | _ => Except.error "expect array root"
| root, PathAccess.ArrayEnd :: rest, v =>
  match (if root.isNull then Json.arr [] else root) with
  | Json.arr elems =>
    let elems2 := elems ++ [Json.null]
    match put_value (elems2.getD (elems2.length - 1) Json.null) rest v with
    | Except.ok r => Except.ok (Json.arr (elems2.set (elems2.length - 1) r))
    | Except.error e => Except.error e
  | _ => Except.error "expect array root"

def USIZE_MAX : Nat := 18446744073709551615

/-- `put_value` with its potential panic points made explicit: `none` stands for
a panic.  The `u32`-to-`usize` conversion `(*index).try_into().unwrap()` fails
exactly when the index exceeds `usize::MAX`; each `arr[i]` dereference fails
exactly when `i` is out of bounds. -/
def put_value_checked : Json → List PathAccess → Json → Option (Except String Json)
| _, [], v => some (Except.ok v)
| root, PathAccess.ObjectKey k :: rest, v =>
  match (if root.isNull then Json.obj [] else root) with
  | Json.obj kvs =>
    match put_value_checked ((lookupKey k kvs).getD Json.null) rest v with
    | some (Except.ok r) => some (Except.ok (Json.obj (objInsert k r kvs)))
    | some (Except.error e) => some (Except.error e)
    | none => none
  | _ => some (Except.error "expect object root")
| root, PathAccess.ArrayIndex i :: rest, v =>
  match (if root.isNull then Json.arr [] else root) with
  | Json.arr elems =>
    if i ≤ USIZE_MAX then
      let elems2 := if elems.length ≤ i then elems ++ List.replicate (i + 1 - elems.length) Json.null else elems
      match elems2[i]? with
      | some el =>
        match put_value_checked el rest v with
        | some (Except.ok r) => some (Except.ok (Json.arr (elems2.set i r)))
        | some (Except.error e) => some (Except.error e)
        | none => none
      | none => none
    else none
  | _ => some (Except.error "expect array root")
| root, PathAccess.ArrayEnd :: rest, v =>
  match (if root.isNull then Json.arr [] else root) with
  | Json.arr elems =>
    let elems2 := elems ++ [Json.null]
    match elems2[elems2.length - 1]? with
    | some el =>
      match put_value_checked el rest v with
      | some (Except.ok r) => some (Except.ok (Json.arr (elems2.set (elems2.length - 1) r)))
      | some (Except.error e) => some (Except.error e)
      | none => none
    | none => none
  | _ => some (Except.error "expect array root")

/-- All `ArrayIndex` entries of a path fit in a `usize`.  In the program this
holds for every parsed path, since indices come from nom's `u32` parser. -/
def pathIndexOk : List PathAccess → Bool
| [] => true
| PathAccess.ArrayIndex i :: rest => decide (i ≤ USIZE_MAX) && pathIndexOk rest
| _ :: rest => pathIndexOk rest

/-! ### Raw JSON parsing (`serde_json::from_str`), restricted to the
integer-numbered fragment of JSON.  No claim below concerns raw-JSON fragment
values, but `build` dispatches through this for `BodyValue.json`. -/

def jsonWs (c : Char) : Bool := c == ' ' || c == '\n' || c == '\t' || c == '\r'

def hexDigitVal (c : Char) : Option Nat :=
  if c.isDigit then some (c.toNat - 48)
  else if decide ('a' ≤ c) && decide (c ≤ 'f') then some (c.toNat - 87)
  else if decide ('A' ≤ c) && decide (c ≤ 'F') then some (c.toNat - 55)
  else none

/-- JSON string body after the opening quote. -/
def parseJsonStr : List Char → Option (List Char × List Char)
| [] => none
| '"' :: rest => some ([], rest)
| '\\' :: 'u' :: a :: b :: c :: d :: rest =>
  match hexDigitVal a, hexDigitVal b, hexDigitVal c, hexDigitVal d with
  | some x, some y, some z, some w =>
    match parseJsonStr rest with
    | some (cs, r) => some (Char.ofNat (((x * 16 + y) * 16 + z) * 16 + w) :: cs, r)
    | none => none
  | _, _, _, _ => none
| '\\' :: e :: rest =>
  match (if e = '"' then some '"'
         else if e = '\\' then some '\\'
         else if e = '/' then some '/'
         else if e = 'n' then some '\n'
         else if e = 't' then some '\t'
         else if e = 'r' then some '\r'
         else if e = 'b' then some '\x08'
         else if e = 'f' then some '\x0c'
         else none) with
  | some ch =>
    match parseJsonStr rest with
    | some (cs, r) => some (ch :: cs, r)
    | none => none
  | none => none
| c :: rest =>
  if c.toNat < 32 then none
  else
    match parseJsonStr rest with
    | some (cs, r) => some (c :: cs, r)
    | none => none

mutual

/-- One JSON value (leading whitespace allowed). -/
def parseJsonVal : Nat → List Char → Option (Json × List Char)
| 0, _ => none
| Nat.succ fuel, s =>
  match s.dropWhile jsonWs with
  | 'n' :: 'u' :: 'l' :: 'l' :: rest => some (Json.null, rest)
  | 't' :: 'r' :: 'u' :: 'e' :: rest => some (Json.bool true, rest)
  | 'f' :: 'a' :: 'l' :: 's' :: 'e' :: rest => some (Json.bool false, rest)
  | '"' :: rest =>
    match parseJsonStr rest with
    | some (cs, r) => some (Json.str (String.mk cs), r)
    | none => none
  | '\x5b' :: rest =>
    (match (rest.dropWhile jsonWs) with
     | '\x5d' :: r => some (Json.arr [], r)
     | _ =>
       match parseJsonItems fuel rest with
       | some (items, r) => some (Json.arr items, r)
       | none => none)
  | '\x7b' :: rest =>
    (match (rest.dropWhile jsonWs) with
     | '\x7d' :: r => some (Json.obj [], r)
     | _ =>
       match parseJsonMembers fuel rest with
       | some (kvs, r) => some (Json.obj kvs, r)
       | none => none)
  | '-' :: rest =>
    (match takeWhile1 Char.isDigit rest with
     | some (ds, r) => some (Json.num (-(digitsVal ds : Int)), r)
     | none => none)
  | c :: rest =>
    if c.isDigit then
      match takeWhile1 Char.isDigit (c :: rest) with
      | some (ds, r) => some (Json.num (digitsVal ds : Int), r)
      | none => none
    else none
  | [] => none

/-- Comma-separated array items, terminated by `]`. -/
def parseJsonItems : Nat → List Char → Option (List Json × List Char)
| 0, _ => none
| Nat.succ fuel, s =>
  match parseJsonVal fuel s with
  | none => none
  | some (j, r) =>
    match r.dropWhile jsonWs with
    | ',' :: r2 =>
      (match parseJsonItems fuel r2 with
       | some (items, r3) => some (j :: items, r3)
       | none => none)
    | '\x5d' :: r2 => some ([j], r2)
    | _ => none

/-- Comma-separated object members, terminated by `}`. -/
def parseJsonMembers : Nat → List Char → Option (List (String × Json) × List Char)
| 0, _ => none
| Nat.succ fuel, s =>
  match s.dropWhile jsonWs with
  | '"' :: rest =>
    (match parseJsonStr rest with
     | none => none
     | some (k, r) =>
       match r.dropWhile jsonWs with
       | ':' :: r2 =>
         (match parseJsonVal fuel r2 with
          | none => none
          | some (j, r3) =>
            match r3.dropWhile jsonWs with
            | ',' :: r4 =>
              (match parseJsonMembers fuel r4 with
               | some (kvs, r5) => some ((String.mk k, j) :: kvs, r5)
               | none => none)
            | '\x7d' :: r4 => some ([(String.mk k, j)], r4)
            | _ => none)
       | _ => none)
  | _ => none

end

/-- `serde_json::from_str::<Value>`, on the integer-numbered JSON fragment. -/
def jsonFromStr (s : String) : Except String Json :=
  match parseJsonVal (s.data.length + 1) s.data with
  | some (j, rest) =>
    if rest.dropWhile jsonWs = [] then Except.ok j else Except.error "trailing characters"
  | none => Except.error "expected value"

/-! ### Serialization (`Value::to_string`) -/

def hexDigitChar (n : Nat) : Char :=
  if n < 10 then Char.ofNat (48 + n) else Char.ofNat (87 + n)

/-- serde_json's compact escaping of one string character. -/
def escChar (c : Char) : List Char :=
  if c = '"' then ['\\', '"']
  else if c = '\\' then ['\\', '\\']
  else if c = '\n' then ['\\', 'n']
  else if c = '\t' then ['\\', 't']
  else if c = '\r' then ['\\', 'r']
  else if c = '\x08' then ['\\', 'b']
  else if c = '\x0c' then ['\\', 'f']
  else if c.toNat < 32 then
    ['\\', 'u', '0', '0', hexDigitChar (c.toNat / 16), hexDigitChar (c.toNat % 16)]
  else [c]

def escapeString (s : String) : String :=
  String.mk (s.data.foldr (fun c acc => escChar c ++ acc) [])

mutual

/-- `Value::to_string`: compact serialization. -/
def jsonToString : Json → String
| Json.null => "null"
| Json.bool true => "true"
| Json.bool false => "false"
| Json.num n => toString n
| Json.str s => "\"" ++ escapeString s ++ "\""
| Json.arr elems => "\x5b" ++ arrToString elems ++ "\x5d"
| Json.obj kvs => "\x7b" ++ objToString kvs ++ "\x7d"

def arrToString : List Json → String
| [] => ""
| [j] => jsonToString j
| j :: rest => jsonToString j ++ "," ++ arrToString rest

def objToString : List (String × Json) → String
| [] => ""
| [(k, v)] => "\"" ++ escapeString k ++ "\":" ++ jsonToString v
| (k, v) :: rest => "\"" ++ escapeString k ++ "\":" ++ jsonToString v ++ "," ++ objToString rest

end

/-- The fold inside `build`: thread the root through `put_value` for each
fragment, in input order. -/
def buildRoot : Json → List BodyValue → Except String Json
| root, [] => Except.ok root
| root, BodyValue.string path v :: rest =>
  match put_value root path (Json.str v) with
  | Except.ok r => buildRoot r rest
  | Except.error e => Except.error e
| root, BodyValue.json path v :: rest =>
  match jsonFromStr v with
  | Except.ok j =>
    match put_value root path j with
    | Except.ok r => buildRoot r rest
    | Except.error e => Except.error e
  | Except.error e => Except.error e

/-- `build` from src/json_builder.rs: fold all fragments into an initially-null
root, then serialize. -/
def build (values : List BodyValue) : Except String String :=
  match buildRoot Json.null values with
  | Except.ok root => Except.ok (jsonToString root)
  | Except.error e => Except.error e

/-! ## Claim C2: last write wins -/

/-- Claim C2: building `a[b]=c` then `a[b]=d` yields `{"a":{"b":"d"}}`, and in
general a fragment whose accessor path is exhausted overwrites the addressed
node's value wholesale, so of two fragments addressing the same path the later
one determines the final value. -/
theorem C2_last_write_wins :
    parse_component "a\x5bb\x5d=c" =
      Except.ok (RequestComponent.bodyValue
        (BodyValue.string [PathAccess.ObjectKey "a", PathAccess.ObjectKey "b"] "c")) ∧
    parse_component "a\x5bb\x5d=d" =
      Except.ok (RequestComponent.bodyValue
        (BodyValue.string [PathAccess.ObjectKey "a", PathAccess.ObjectKey "b"] "d")) ∧
    build [BodyValue.string [PathAccess.ObjectKey "a", PathAccess.ObjectKey "b"] "c",
           BodyValue.string [PathAccess.ObjectKey "a", PathAccess.ObjectKey "b"] "d"] =
      Except.ok "\x7b\"a\":\x7b\"b\":\"d\"\x7d\x7d" ∧
    ∀ (root v : Json), put_value root [] v = Except.ok v := by
  refine ⟨by decide, by decide, by decide, fun root v => rfl⟩

/-! ## Claim C3: type-conflict detection -/

/-- Claim C3: building `a[b]=c` then `a[b][]=e` fails with an error naming the
expected kind, and in general an accessor step reaching a node that is neither
null nor the required container kind returns the corresponding
"expect object root" / "expect array root" error. -/
theorem C3_type_conflict :
    parse_component "a\x5bb\x5d=c" =
      Except.ok (RequestComponent.bodyValue
        (BodyValue.string [PathAccess.ObjectKey "a", PathAccess.ObjectKey "b"] "c")) ∧
    parse_component "a\x5bb\x5d\x5b\x5d=e" =
      Except.ok (RequestComponent.bodyValue
        (BodyValue.string [PathAccess.ObjectKey "a", PathAccess.ObjectKey "b", PathAccess.ArrayEnd] "e")) ∧
    build [BodyValue.string [PathAccess.ObjectKey "a", PathAccess.ObjectKey "b"] "c",
           BodyValue.string [PathAccess.ObjectKey "a", PathAccess.ObjectKey "b", PathAccess.ArrayEnd] "e"] =
      Except.error "expect array root" ∧
    (∀ (root : Json) (k : String) (rest : List PathAccess) (v : Json),
      root.isNull = false → root.isObj = false →
      put_value root (PathAccess.ObjectKey k :: rest) v = Except.error "expect object root") ∧
    (∀ (root : Json) (i : Nat) (rest : List PathAccess) (v : Json),
      root.isNull = false → root.isArr = false →
      put_value root (PathAccess.ArrayIndex i :: rest) v = Except.error "expect array root") ∧
    (∀ (root : Json) (rest : List PathAccess) (v : Json),
      root.isNull = false → root.isArr = false →
      put_value root (PathAccess.ArrayEnd :: rest) v = Except.error "expect array root") := by
  refine ⟨by decide, by decide, by decide, ?_, ?_, ?_⟩
  · intro root k rest v h1 h2
    cases root <;> simp_all [put_value, Json.isNull, Json.isObj]
  · intro root i rest v h1 h2
    cases root <;> simp_all [put_value, Json.isNull, Json.isArr]
  · intro root rest v h1 h2
    cases root <;> simp_all [put_value, Json.isNull, Json.isArr]

/-- Witness for C3: the general conflict clauses applied to a string node. -/
theorem C3_type_conflict_witness :
    put_value (Json.str "c") [PathAccess.ObjectKey "b"] (Json.str "e") = Except.error "expect object root" ∧
    put_value (Json.str "c") [PathAccess.ArrayIndex 0] (Json.str "e") = Except.error "expect array root" ∧
    put_value (Json.str "c") [PathAccess.ArrayEnd] (Json.str "e") = Except.error "expect array root" :=
  ⟨C3_type_conflict.2.2.2.1 (Json.str "c") "b" [] (Json.str "e") rfl rfl,
   C3_type_conflict.2.2.2.2.1 (Json.str "c") 0 [] (Json.str "e") rfl rfl,
   C3_type_conflict.2.2.2.2.2 (Json.str "c") [] (Json.str "e") rfl rfl⟩

/-! ## Claim C4: header token classification -/

/-- Claim C4 (code divergence): the source's header-name character test uses
half-open Rust ranges `'A'..'Z'`, `'a'..'z'`, `'0'..'9'`, which exclude their
upper endpoints, so a name drawn from `[A-Za-z0-9_-]` that contains `Z`, `z`
or `9` is not classified as a header at all; `foo:bar baz` (whose name avoids
those three characters) parses as the claim describes. -/
theorem C4_header_name_ranges :
    parse_component "foo:bar baz" = Except.ok (RequestComponent.header "foo" "bar baz") ∧
    headerNameChar 'Z' = false ∧
    headerNameChar 'z' = false ∧
    headerNameChar '9' = false ∧
    parse_component "Z:x" = Except.error "Invalid request component" ∧
    parse_component "z:x" = Except.error "Invalid request component" ∧
    parse_component "9:x" = Except.error "Invalid request component" := by
  decide

/-! ## Claim C6: sparse array materialization -/

/-- Helper: `ArrayIndex i` on an array of length at most `i` grows the array
with nulls up to index `i` and recurses into the (null) element `i`. -/
theorem put_value_grow (elems : List Json) (i : Nat) (rest : List PathAccess) (v : Json)
    (h : elems.length ≤ i) :
    put_value (Json.arr elems) (PathAccess.ArrayIndex i :: rest) v
      = (put_value Json.null rest v).map
          (fun r => Json.arr ((elems ++ List.replicate (i + 1 - elems.length) Json.null).set i r)) := by
  have h2 : i - elems.length < i + 1 - elems.length := by omega
  have hget : (elems ++ List.replicate (i + 1 - elems.length) Json.null).getD i Json.null
      = Json.null := by
    simp [List.getD_eq_getElem?_getD, List.getElem?_append_right h, List.getElem?_replicate, h2]
  have he : (if elems.length ≤ i then elems ++ List.replicate (i + 1 - elems.length) Json.null else elems)
      = elems ++ List.replicate (i + 1 - elems.length) Json.null := if_pos h
  have hstep :
      put_value (Json.arr elems) (PathAccess.ArrayIndex i :: rest) v
        = match put_value ((if elems.length ≤ i then elems ++ List.replicate (i + 1 - elems.length) Json.null else elems).getD i Json.null) rest v with
          | Except.ok r => Except.ok (Json.arr ((if elems.length ≤ i then elems ++ List.replicate (i + 1 - elems.length) Json.null else elems).set i r))
          | Except.error e => Except.error e := rfl
  rw [hstep, he, hget]
  cases hpv : put_value Json.null rest v <;> simp [Except.map]

/-- Claim C6: `[1]=foo` yields `[null,"foo"]`; an `ArrayIndex i` step promotes
a null node to an empty array, and on an array of length at most `i` grows the
array with nulls until index `i` exists before recursing into element `i`
(which is one of the appended nulls). -/
theorem C6_sparse_array :
    parse_component "\x5b1\x5d=foo" =
      Except.ok (RequestComponent.bodyValue (BodyValue.string [PathAccess.ArrayIndex 1] "foo")) ∧
    build [BodyValue.string [PathAccess.ArrayIndex 1] "foo"] = Except.ok "\x5bnull,\"foo\"\x5d" ∧
    (∀ (i : Nat) (rest : List PathAccess) (v : Json),
      put_value Json.null (PathAccess.ArrayIndex i :: rest) v
        = put_value (Json.arr []) (PathAccess.ArrayIndex i :: rest) v) ∧
    (∀ (elems : List Json) (i : Nat) (rest : List PathAccess) (v : Json),
      elems.length ≤ i →
      put_value (Json.arr elems) (PathAccess.ArrayIndex i :: rest) v
        = (put_value Json.null rest v).map
            (fun r => Json.arr ((elems ++ List.replicate (i + 1 - elems.length) Json.null).set i r))) := by
  exact ⟨by decide, by decide, fun i rest v => rfl, put_value_grow⟩

/-- Witness for C6: the growth clause applied to the empty array at index 1. -/
theorem C6_sparse_array_witness :
    put_value (Json.arr []) [PathAccess.ArrayIndex 1] (Json.str "foo")
      = (put_value Json.null [] (Json.str "foo")).map
          (fun r => Json.arr ((([] : List Json) ++ List.replicate (1 + 1 - ([] : List Json).length) Json.null).set 1 r)) :=
  C6_sparse_array.2.2.2 [] 1 [] (Json.str "foo") (by decide)

/-! ## Claim C1: path-accessor segment classification -/

/-- Counterexample to claim C1 as stated: the dotted segment `.123` consists of
`.` followed by a non-empty run containing none of `.`, `[`, `=`, `:`, so the
claim says it parses as `ObjectKey "123"`; the code's segment alternation tries
`array_index` (which accepts `"." ~ u32`) before `object_key`, so it parses as
`ArrayIndex 123`. -/
theorem C1_counterexample :
    parseSegment ['.', '1', '2', '3'] = some (PathAccess.ArrayIndex 123, []) ∧
    ¬ parseSegment ['.', '1', '2', '3'] = some (PathAccess.ObjectKey "123", []) := by
  decide

/-! ## Claims C5/C8 counterexamples -/

/-- Counterexample to claim C5 as stated: `0` is a non-empty run containing
none of `.`, `[`, `=`, `:`, but the token `0:=1` parses with path
`ArrayIndex 0`, not `ObjectKey "0"`, because `array_index` accepts a bare
decimal run before `object_key` is tried. -/
theorem C5_counterexample :
    parse_component "0:=1" =
      Except.ok (RequestComponent.bodyValue (BodyValue.json [PathAccess.ArrayIndex 0] "1")) ∧
    ¬ parse_component "0:=1" =
      Except.ok (RequestComponent.bodyValue (BodyValue.json [PathAccess.ObjectKey "0"] "1")) := by
  decide

/-- Counterexample to claim C8 as stated: with key `a` and the empty value,
the token `a==` is not classified as a query parameter at all (the query
value parser requires at least one character); it parses as the body fragment
`a` = `"="`. -/
theorem C8_counterexample :
    parse_component "a==" =
      Except.ok (RequestComponent.bodyValue (BodyValue.string [PathAccess.ObjectKey "a"] "=")) ∧
    ¬ parse_component "a==" = Except.ok (RequestComponent.queryParam "a" "") := by
  decide

/-! ## Claim C7: idempotence of literal fragments -/

/-- Counterexample to claim C7 as stated: the literal fragment `[]=foo`
(path `[ArrayEnd]`) applied twice appends twice. -/
theorem C7_counterexample :
    build [BodyValue.string [PathAccess.ArrayEnd] "foo", BodyValue.string [PathAccess.ArrayEnd] "foo"]
      = Except.ok "\x5b\"foo\",\"foo\"\x5d" ∧
    build [BodyValue.string [PathAccess.ArrayEnd] "foo"] = Except.ok "\x5b\"foo\"\x5d" ∧
    ¬ build [BodyValue.string [PathAccess.ArrayEnd] "foo", BodyValue.string [PathAccess.ArrayEnd] "foo"]
        = build [BodyValue.string [PathAccess.ArrayEnd] "foo"] := by
  decide

theorem lookupKey_objInsert (k : String) (r : Json) (kvs : List (String × Json)) :
    lookupKey k (objInsert k r kvs) = some r := by
  induction kvs with
  | nil => simp [objInsert, lookupKey]
  | cons hd tl ih =>
    rcases hd with ⟨k1, v1⟩
    by_cases hk : k1 = k
    · simp [objInsert, hk, lookupKey]
    · simp [objInsert, hk, lookupKey, ih]

theorem objInsert_objInsert (k : String) (r : Json) (kvs : List (String × Json)) :
    objInsert k r (objInsert k r kvs) = objInsert k r kvs := by
  induction kvs with
  | nil => simp [objInsert]
  | cons hd tl ih =>
    rcases hd with ⟨k1, v1⟩
    by_cases hk : k1 = k
    · simp [objInsert, hk]
    · simp [objInsert, hk, ih]

/-- Definitional unfolding of the `ArrayIndex` step of `put_value` on an array
root. -/
theorem put_value_arrayIndex_unfold (l : List Json) (i : Nat) (rest : List PathAccess) (v : Json) :
    put_value (Json.arr l) (PathAccess.ArrayIndex i :: rest) v
      = match put_value ((if l.length ≤ i then l ++ List.replicate (i + 1 - l.length) Json.null else l).getD i Json.null) rest v with
        | Except.ok r => Except.ok (Json.arr ((if l.length ≤ i then l ++ List.replicate (i + 1 - l.length) Json.null else l).set i r))
        | Except.error e => Except.error e := rfl

/-- Re-applying `put_value` along an `ArrayEnd`-free path to its own result is
the identity: the structure the first application created is revisited, and the
terminal overwrite writes the same value again. -/
theorem put_value_idem (v : Json) :
    ∀ (p : List PathAccess) (root r : Json), PathAccess.ArrayEnd ∉ p →
      put_value root p v = Except.ok r → put_value r p v = Except.ok r := by
  intro p
  induction p with
  | nil =>
    intro root r _ h
    simpa [put_value] using h
  | cons a rest ih =>
    intro root r hne h
    have hnea : PathAccess.ArrayEnd ∉ rest := by
      intro hmem; exact hne (List.mem_cons_of_mem a hmem)
    match a with
    | PathAccess.ObjectKey k =>
      rw [put_value] at h
      split at h
      · split at h
        · rename_i r1 hpv
          injection h with h
          subst h
          have hr1 : put_value r1 rest v = Except.ok r1 := ih _ r1 hnea hpv
          rw [put_value]
          simp [Json.isNull, lookupKey_objInsert, hr1, objInsert_objInsert]
        · exact absurd h (by simp)
      · exact absurd h (by simp)
    | PathAccess.ArrayIndex i =>
      simp only [put_value] at h
      split at h
      · rename_i elems heq
        split at h
        · rename_i r1 hpv
          injection h with h
          subst h
          by_cases hc : elems.length ≤ i
          · rw [if_pos hc] at hpv ⊢
            have hEl : (elems ++ List.replicate (i + 1 - elems.length) Json.null).length = i + 1 := by
              simp only [List.length_append, List.length_replicate]; omega
            have hr1 : put_value r1 rest v = Except.ok r1 := ih _ r1 hnea hpv
            have hlen2 : ¬((elems ++ List.replicate (i + 1 - elems.length) Json.null).set i r1).length ≤ i := by
              rw [List.length_set]; omega
            have hgd : ((elems ++ List.replicate (i + 1 - elems.length) Json.null).set i r1).getD i Json.null = r1 := by
              rw [List.getD_eq_getElem?_getD, List.getElem?_set_self (by omega)]
              rfl
            rw [put_value_arrayIndex_unfold, if_neg hlen2, hgd, hr1]
            simp [List.set_set]
          · rw [if_neg hc] at hpv ⊢
            have hr1 : put_value r1 rest v = Except.ok r1 := ih _ r1 hnea hpv
            have hlen2 : ¬(elems.set i r1).length ≤ i := by
              rw [List.length_set]; omega
            have hgd : (elems.set i r1).getD i Json.null = r1 := by
              rw [List.getD_eq_getElem?_getD, List.getElem?_set_self (by omega)]
              rfl
            rw [put_value_arrayIndex_unfold, if_neg hlen2, hgd, hr1]
            simp [List.set_set]
        · exact absurd h (by simp)
      · exact absurd h (by simp)
    | PathAccess.ArrayEnd => exact absurd (List.mem_cons_self PathAccess.ArrayEnd rest) hne

/-- Claim C7 (amended): a literal body fragment whose path contains no
array-append accessor is idempotent: building `[f, f]` equals building `[f]`.
(With an `ArrayAppend` accessor the second application appends a second
element, as the counterexample shows.) -/
theorem C7_idempotent (path : List PathAccess) (v : String)
    (h : PathAccess.ArrayEnd ∉ path) :
    build [BodyValue.string path v, BodyValue.string path v] = build [BodyValue.string path v] := by
  simp only [build, buildRoot]
  cases hpv : put_value Json.null path (Json.str v) with
  | error e => rfl
  | ok r =>
    have hidem := put_value_idem (Json.str v) path Json.null r h hpv
    simp [hidem]

/-- Witness for C7 (amended), at the fragment `a=b`. -/
theorem C7_idempotent_witness :
    build [BodyValue.string [PathAccess.ObjectKey "a"] "b", BodyValue.string [PathAccess.ObjectKey "a"] "b"]
      = build [BodyValue.string [PathAccess.ObjectKey "a"] "b"] :=
  C7_idempotent [PathAccess.ObjectKey "a"] "b" (by decide)

/-! ## Claim C9: uniform classification failure -/

theorem dropWhile_true_eq_nil (l : List Char) : l.dropWhile (fun _ => true) = [] :=
  List.dropWhile_eq_nil_iff.mpr (fun _ _ => rfl)

theorem takeWhile1_true_remainder (l v r : List Char)
    (h : takeWhile1 (fun _ => true) l = some (v, r)) : r = [] := by
  cases l with
  | nil => simp [takeWhile1] at h
  | cons c cs =>
    simp [takeWhile1, dropWhile_true_eq_nil] at h
    exact h.2

theorem query_param_remainder (s : List Char) (c : RequestComponent) (r : List Char)
    (h : query_param s = some (c, r)) : r = [] := by
  rw [query_param] at h
  split at h
  · exact absurd h (by simp)
  · split at h
    · exact absurd h (by simp)
    · split at h
      · exact absurd h (by simp)
      · rename_i v3 r3 htw
        injection h with h
        injection h with h1 h2
        subst h2
        exact takeWhile1_true_remainder _ _ _ htw

theorem header_remainder (s : List Char) (c : RequestComponent) (r : List Char)
    (h : header s = some (c, r)) : r = [] := by
  rw [header] at h
  split at h
  · exact absurd h (by simp)
  · split at h
    · exact absurd h (by simp)
    · split at h
      · exact absurd h (by simp)
      · rename_i v3 r3 htw
        injection h with h
        injection h with h1 h2
        subst h2
        exact takeWhile1_true_remainder _ _ _ htw

theorem body_remainder (s : List Char) (c : RequestComponent) (r : List Char)
    (h : body s = some (c, r)) : r = [] := by
  rw [body] at h
  split at h
  split at h
  · injection h with h
    injection h with h1 h2
    exact h2.symm
  · split at h
    · injection h with h
      injection h with h1 h2
      exact h2.symm
    · exact absurd h (by simp)

theorem altO_none {α : Type} (b : Option α) : altO none b = b := rfl

theorem altO_some {α : Type} (x : α) (b : Option α) : altO (some x) b = some x := rfl

/-- Claim C9: `parse_component` either returns a component having consumed the
whole token, or fails with the single error "Invalid request component"; the
source's "Remainder found in request component" branch is unreachable because
every successful alternative consumes the entire input. -/
theorem C9_uniform_classification (s : List Char) :
    (∃ c, parse_component_chars s = Except.ok c) ∨
    parse_component_chars s = Except.error "Invalid request component" := by
  rcases halt : altO (query_param s) (altO (body s) (header s)) with _ | ⟨c, r⟩
  · right
    rw [parse_component_chars, halt]
  · left
    have hr : r = [] := by
      rcases hq : query_param s with _ | ⟨qc, qr⟩
      · rcases hb : body s with _ | ⟨bc, br⟩
        · rw [hq, altO_none, hb, altO_none] at halt
          exact header_remainder s c r halt
        · rw [hq, altO_none, hb, altO_some] at halt
          injection halt with halt
          injection halt with h1 h2
          subst h2
          exact body_remainder s bc br hb
      · rw [hq, altO_some] at halt
        injection halt with halt
        injection halt with h1 h2
        subst h2
        exact query_param_remainder s qc qr hq
    subst hr
    exact ⟨c, by rw [parse_component_chars, halt]; simp⟩

/-! ## Claim C1 amended: segment classification machinery -/

theorem takeWhile_append_cons {p : Char → Bool} :
    ∀ (l : List Char) (b : Char) (r : List Char), (∀ c ∈ l, p c = true) → p b = false →
      ((l ++ b :: r).takeWhile p = l ∧ (l ++ b :: r).dropWhile p = b :: r)
  | [], b, r, _, hb => by simp [List.takeWhile_cons, List.dropWhile_cons, hb]
  | c :: cs, b, r, hl, hb => by
    have hc : p c = true := hl c (List.mem_cons_self c cs)
    have ih := takeWhile_append_cons cs b r (fun x hx => hl x (List.mem_cons_of_mem c hx)) hb
    simp [List.takeWhile_cons, List.dropWhile_cons, hc, ih.1, ih.2]

theorem takeWhile1_append {p : Char → Bool} (l : List Char) (b : Char) (r : List Char)
    (hne : l ≠ []) (hl : ∀ c ∈ l, p c = true) (hb : p b = false) :
    takeWhile1 p (l ++ b :: r) = some (l, b :: r) := by
  cases l with
  | nil => exact absurd rfl hne
  | cons c cs =>
    have hc : p c = true := hl c (List.mem_cons_self c cs)
    have h2 := takeWhile_append_cons cs b r (fun x hx => hl x (List.mem_cons_of_mem c hx)) hb
    simp [takeWhile1, hc, h2.1, h2.2]

theorem takeWhile1_all {p : Char → Bool} (l : List Char) (hne : l ≠ [])
    (hl : ∀ c ∈ l, p c = true) : takeWhile1 p l = some (l, []) := by
  cases l with
  | nil => exact absurd rfl hne
  | cons c cs =>
    have hc : p c = true := hl c (List.mem_cons_self c cs)
    have h1 : (c :: cs).takeWhile p = c :: cs :=
      List.takeWhile_eq_self_iff.mpr (fun x hx => hl x hx)
    have h2 : (c :: cs).dropWhile p = [] :=
      List.dropWhile_eq_nil_iff.mpr (fun x hx => hl x hx)
    simp [takeWhile1, hc, h1, h2]

theorem parseU32_cons_not_digit (c : Char) (s : List Char) (hc : c.isDigit = false) :
    parseU32 (c :: s) = none := by
  simp [parseU32, takeWhile1, hc]

theorem parseU32_append (ds : List Char) (b : Char) (r : List Char)
    (hne : ds ≠ []) (hd : ∀ c ∈ ds, c.isDigit = true) (hb : b.isDigit = false)
    (hv : digitsVal ds ≤ U32_MAX) :
    parseU32 (ds ++ b :: r) = some (digitsVal ds, b :: r) := by
  simp only [parseU32]
  rw [takeWhile1_append ds b r hne hd hb]
  simp [hv]

theorem parseU32_all (ds : List Char) (hne : ds ≠ []) (hd : ∀ c ∈ ds, c.isDigit = true)
    (hv : digitsVal ds ≤ U32_MAX) : parseU32 ds = some (digitsVal ds, []) := by
  simp only [parseU32]
  rw [takeWhile1_all ds hne hd]
  simp [hv]

theorem dropWhile_append_left {p : Char → Bool} :
    ∀ (l r : List Char), l.dropWhile p ≠ [] →
      ((l ++ r).takeWhile p = l.takeWhile p ∧ (l ++ r).dropWhile p = l.dropWhile p ++ r)
  | [], _, h => absurd rfl h
  | c :: cs, r, h => by
    cases hpc : p c with
    | false => simp [List.takeWhile_cons, List.dropWhile_cons, hpc]
    | true =>
      have h2 : cs.dropWhile p ≠ [] := by
        intro hcon
        apply h
        simp [List.dropWhile_cons, hpc, hcon]
      have ih := dropWhile_append_left cs r h2
      simp [List.takeWhile_cons, List.dropWhile_cons, hpc, ih.1, ih.2]

theorem dropWhile_head {p : Char → Bool} :
    ∀ (l : List Char) (b : Char) (t : List Char), l.dropWhile p = b :: t → p b = false ∧ b ∈ l
  | [], b, t, h => by simp at h
  | c :: cs, b, t, h => by
    cases hpc : p c with
    | true =>
      simp only [List.dropWhile_cons, hpc, if_true] at h
      have ih := dropWhile_head cs b t (by simpa using h)
      exact ⟨ih.1, List.mem_cons_of_mem c ih.2⟩
    | false =>
      simp [List.dropWhile_cons, hpc] at h
      rcases h with ⟨h1, h2⟩
      subst h1
      exact ⟨hpc, List.mem_cons_self c cs⟩

theorem dropWhile_ne_nil_of_mem {p : Char → Bool} (l : List Char) (c : Char)
    (hc : c ∈ l) (hcp : p c = false) : l.dropWhile p ≠ [] := by
  intro hcon
  have h2 := List.dropWhile_eq_nil_iff.mp hcon c hc
  rw [hcp] at h2
  exact Bool.false_ne_true h2

theorem seg_bracket_digits (ds : List Char) (hne : ds ≠ []) (hd : ∀ c ∈ ds, c.isDigit = true)
    (hv : digitsVal ds ≤ U32_MAX) :
    parseSegment ('\x5b' :: (ds ++ ['\x5d'])) = some (PathAccess.ArrayIndex (digitsVal ds), []) := by
  have h1 : parseU32 (ds ++ '\x5d' :: []) = some (digitsVal ds, ['\x5d']) :=
    parseU32_append ds '\x5d' [] hne hd (by decide) hv
  simp [parseSegment, array_index, tagP, h1, altO]

theorem array_index_bracket_fail (ks : List Char) (r : List Char)
    (hne : ks ≠ []) (hk : ∀ c ∈ ks, c ≠ '\x5d')
    (hnd : ∃ c ∈ ks, c.isDigit = false) :
    array_index ('\x5b' :: (ks ++ '\x5d' :: r)) = none := by
  rcases hnd with ⟨cd, hcd1, hcd2⟩
  cases ks with
  | nil => exact absurd rfl hne
  | cons k0 kt =>
    by_cases h0 : k0.isDigit = true
    · have hcdkt : cd ∈ kt := by
        rcases List.mem_cons.mp hcd1 with h | h
        · rw [h] at hcd2; rw [hcd2] at h0; exact absurd h0 (by simp)
        · exact h
      have hdwt : kt.dropWhile Char.isDigit ≠ [] := dropWhile_ne_nil_of_mem kt cd hcdkt hcd2
      rcases hbt : kt.dropWhile Char.isDigit with _ | ⟨b, t⟩
      · exact absurd hbt hdwt
      have hbp := dropWhile_head kt b t hbt
      have hbne : b ≠ '\x5d' := hk b (List.mem_cons_of_mem k0 hbp.2)
      have hsplit := dropWhile_append_left kt ('\x5d' :: r) hdwt
      have htw1 : takeWhile1 Char.isDigit (k0 :: (kt ++ '\x5d' :: r))
          = some (k0 :: List.takeWhile Char.isDigit kt, b :: (t ++ '\x5d' :: r)) := by
        simp [takeWhile1, h0, hsplit.1, hsplit.2, hbt]
      by_cases hov : digitsVal (k0 :: List.takeWhile Char.isDigit kt) ≤ U32_MAX
      · have hp : parseU32 (k0 :: (kt ++ '\x5d' :: r))
            = some (digitsVal (k0 :: List.takeWhile Char.isDigit kt), b :: (t ++ '\x5d' :: r)) := by
          simp only [parseU32, htw1]
          simp [hov]
        simp [array_index, altO, tagP, hp, if_neg hbne,
              parseU32_cons_not_digit '\x5b' _ (by decide)]
      · have hp : parseU32 (k0 :: (kt ++ '\x5d' :: r)) = none := by
          simp only [parseU32, htw1]
          simp [hov]
        simp [array_index, altO, tagP, hp,
              parseU32_cons_not_digit '\x5b' _ (by decide)]
    · have h0f : k0.isDigit = false := by simpa using h0
      simp [array_index, altO, tagP, parseU32_cons_not_digit k0 _ h0f,
            parseU32_cons_not_digit '\x5b' _ (by decide)]

theorem seg_bracket_key (ks : List Char) (hne : ks ≠ []) (hk : ∀ c ∈ ks, c ≠ '\x5d')
    (hnd : ∃ c ∈ ks, c.isDigit = false) :
    parseSegment ('\x5b' :: (ks ++ ['\x5d'])) = some (PathAccess.ObjectKey (String.mk ks), []) := by
  have hai := array_index_bracket_fail ks [] hne hk hnd
  have hkp : ∀ c ∈ ks, (fun c => !(c == '\x5d')) c = true := by
    intro c hc
    simp [hk c hc]
  have htw := takeWhile1_append ks '\x5d' [] hne hkp (by simp)
  rw [parseSegment, hai, altO_none]
  simp [object_key, altO, tagP, htw]

theorem seg_dot_key (k0 : Char) (kt : List Char) (hk : ∀ c ∈ k0 :: kt, rawKeyChar c = true)
    (hnd : k0.isDigit = false) :
    parseSegment ('.' :: (k0 :: kt)) = some (PathAccess.ObjectKey (String.mk (k0 :: kt)), []) := by
  have h3 := takeWhile1_all (k0 :: kt) (by simp) hk
  simp [parseSegment, array_index, object_key, altO, tagP,
        parseU32_cons_not_digit k0 kt hnd, parseU32_cons_not_digit '.' (k0 :: kt) (by decide), h3]

theorem seg_dot_digits (ds : List Char) (hne : ds ≠ []) (hd : ∀ c ∈ ds, c.isDigit = true)
    (hv : digitsVal ds ≤ U32_MAX) :
    parseSegment ('.' :: ds) = some (PathAccess.ArrayIndex (digitsVal ds), []) := by
  simp [parseSegment, array_index, altO, tagP, parseU32_all ds hne hd hv]

theorem seg_bare_digits (ds : List Char) (hne : ds ≠ []) (hd : ∀ c ∈ ds, c.isDigit = true)
    (hv : digitsVal ds ≤ U32_MAX) :
    parseSegment ds = some (PathAccess.ArrayIndex (digitsVal ds), []) := by
  cases ds with
  | nil => exact absurd rfl hne
  | cons d dt =>
    have hdd : d.isDigit = true := hd d (List.mem_cons_self d dt)
    have h1 : d ≠ '\x5b' := by intro he; rw [he] at hdd; exact absurd hdd (by decide)
    have h2 : d ≠ '.' := by intro he; rw [he] at hdd; exact absurd hdd (by decide)
    have h3 := parseU32_all (d :: dt) (by simp) hd hv
    simp [parseSegment, array_index, altO, tagP, if_neg h1, if_neg h2, h3]

/-- Claim C1 (amended): over complete path-accessor segments, the code
classifies as follows.  A bracketed segment whose content is purely decimal
digits denoting a value that fits in `u32` parses as `ArrayIndex` of that
value; a bracketed segment whose non-empty `]`-free content contains a
non-digit parses as `ObjectKey` of that content; `[]` parses as the
array-append accessor; a `.`-prefixed run containing none of `.[=:` parses as
`ObjectKey` of the run when its first character is not a digit, but as
`ArrayIndex` when the run is purely decimal digits (fitting `u32`); and a bare
decimal run parses as `ArrayIndex`. -/
theorem C1_segment_classification :
    (∀ ds : List Char, ds ≠ [] → (∀ c ∈ ds, c.isDigit = true) → digitsVal ds ≤ U32_MAX →
        parseSegment ('\x5b' :: (ds ++ ['\x5d'])) = some (PathAccess.ArrayIndex (digitsVal ds), [])) ∧
    (∀ ks : List Char, ks ≠ [] → (∀ c ∈ ks, c ≠ '\x5d') → (∃ c ∈ ks, c.isDigit = false) →
        parseSegment ('\x5b' :: (ks ++ ['\x5d'])) = some (PathAccess.ObjectKey (String.mk ks), [])) ∧
    parseSegment ['\x5b', '\x5d'] = some (PathAccess.ArrayEnd, []) ∧
    (∀ (k0 : Char) (kt : List Char), (∀ c ∈ k0 :: kt, rawKeyChar c = true) → k0.isDigit = false →
        parseSegment ('.' :: (k0 :: kt)) = some (PathAccess.ObjectKey (String.mk (k0 :: kt)), [])) ∧
    (∀ ds : List Char, ds ≠ [] → (∀ c ∈ ds, c.isDigit = true) → digitsVal ds ≤ U32_MAX →
        parseSegment ('.' :: ds) = some (PathAccess.ArrayIndex (digitsVal ds), [])) ∧
    (∀ ds : List Char, ds ≠ [] → (∀ c ∈ ds, c.isDigit = true) → digitsVal ds ≤ U32_MAX →
        parseSegment ds = some (PathAccess.ArrayIndex (digitsVal ds), [])) :=
  ⟨seg_bracket_digits, seg_bracket_key, by decide, seg_dot_key, seg_dot_digits, seg_bare_digits⟩

/-- Witness for C1 (amended): each clause at a concrete segment. -/
theorem C1_segment_classification_witness :
    parseSegment ['\x5b', '7', '\x5d'] = some (PathAccess.ArrayIndex 7, []) ∧
    parseSegment ['\x5b', 'i', 'd', '\x5d'] = some (PathAccess.ObjectKey "id", []) ∧
    parseSegment ['\x5b', '\x5d'] = some (PathAccess.ArrayEnd, []) ∧
    parseSegment ['.', 'a', 'b'] = some (PathAccess.ObjectKey "ab", []) ∧
    parseSegment ['.', '4', '2'] = some (PathAccess.ArrayIndex 42, []) ∧
    parseSegment ['3'] = some (PathAccess.ArrayIndex 3, []) :=
  ⟨C1_segment_classification.1 ['7'] (by decide) (by decide) (by decide),
   C1_segment_classification.2.1 ['i', 'd'] (by decide) (by decide) (by decide),
   C1_segment_classification.2.2.1,
   C1_segment_classification.2.2.2.1 'a' ['b'] (by decide) (by decide),
   C1_segment_classification.2.2.2.2.1 ['4', '2'] (by decide) (by decide) (by decide),
   C1_segment_classification.2.2.2.2.2 ['3'] (by decide) (by decide) (by decide)⟩

/-! ## Claims C5 and C8 (amended) -/

theorem rawKeyChar_ne {c : Char} (h : rawKeyChar c = true) :
    c ≠ '.' ∧ c ≠ '\x5b' ∧ c ≠ '=' ∧ c ≠ ':' := by
  simp [rawKeyChar] at h
  exact ⟨h.1.1.1, h.1.1.2, h.1.2, h.2⟩

theorem manySegAux_stop (s : List Char) (h : parseSegment s = none) :
    ∀ fuel, manySegAux fuel s = ([], s) := by
  intro fuel
  cases fuel with
  | zero => rfl
  | succ f => simp [manySegAux, h]

theorem manySegAux_step (s : List Char) (a : PathAccess) (rest : List Char) (fuel : Nat)
    (h : parseSegment s = some (a, rest)) :
    manySegAux (fuel + 1) s = (a :: (manySegAux fuel rest).1, (manySegAux fuel rest).2) := by
  rcases hms : manySegAux fuel rest with ⟨as1, s2⟩
  simp [manySegAux, h, hms]

/-- A leading bare name (not starting with a digit, drawn from the raw-key
character class) parses as a single `ObjectKey` segment, stopping at `:`. -/
theorem parseSegment_name (n0 : Char) (nt rest2 : List Char)
    (hn : ∀ c ∈ n0 :: nt, rawKeyChar c = true) (hnd : n0.isDigit = false) :
    parseSegment (n0 :: (nt ++ ':' :: rest2))
      = some (PathAccess.ObjectKey (String.mk (n0 :: nt)), ':' :: rest2) := by
  have h0 := rawKeyChar_ne (hn n0 (List.mem_cons_self n0 nt))
  have htw := takeWhile1_append (n0 :: nt) ':' rest2 (by simp) hn (by decide)
  have htw2 : takeWhile1 rawKeyChar (n0 :: (nt ++ ':' :: rest2)) = some (n0 :: nt, ':' :: rest2) := by
    simpa using htw
  simp [parseSegment, array_index, object_key, altO, tagP, if_neg h0.2.1, if_neg h0.1,
        parseU32_cons_not_digit n0 _ hnd, htw2]

theorem parseSegment_colon (t : List Char) : parseSegment (':' :: t) = none := by
  simp [parseSegment, array_index, object_key, array_end, altO, tagP, takeWhile1, rawKeyChar, parseU32]

/-- Claim C5 (amended): for a name that is non-empty, drawn from the raw-key
character class (none of `.[=:`), and not starting with a decimal digit, and a
non-empty value not starting with `=`, the token `name:=value` parses as a
raw-JSON body fragment with path `[ObjectKey name]` and value `value` — in
particular never as a header.  (A name starting with a digit parses as an
`ArrayIndex` path instead, and a value starting with `=` makes the token a
query parameter, as the counterexample shows.) -/
theorem C5_raw_json_wins (n0 : Char) (nt : List Char) (v0 : Char) (vt : List Char)
    (hn : ∀ c ∈ n0 :: nt, rawKeyChar c = true) (hnd : n0.isDigit = false)
    (hv0 : v0 ≠ '=') :
    parse_component_chars ((n0 :: nt) ++ ':' :: '=' :: v0 :: vt) =
      Except.ok (RequestComponent.bodyValue
        (BodyValue.json [PathAccess.ObjectKey (String.mk (n0 :: nt))] (String.mk (v0 :: vt)))) := by
  have hqk : ∀ c ∈ (n0 :: nt) ++ [':'], (fun c => !(c == '=')) c = true := by
    intro c hc
    rcases List.mem_append.mp hc with h | h
    · have h2 := (rawKeyChar_ne (hn c h)).2.2.1
      simp [h2]
    · simp at h; subst h; decide
  have htwq := takeWhile1_append ((n0 :: nt) ++ [':']) '=' (v0 :: vt) (by simp) hqk (by decide)
  have hq : query_param ((n0 :: nt) ++ ':' :: '=' :: v0 :: vt) = none := by
    have hshape : (n0 :: nt) ++ ':' :: '=' :: v0 :: vt = ((n0 :: nt) ++ [':']) ++ '=' :: (v0 :: vt) := by
      simp
    rw [query_param, hshape, htwq]
    simp [tagP, if_neg hv0]
  have hsegc : parseSegment (n0 :: (nt ++ ':' :: '=' :: v0 :: vt))
      = some (PathAccess.ObjectKey (String.mk (n0 :: nt)), ':' :: '=' :: v0 :: vt) :=
    parseSegment_name n0 nt ('=' :: v0 :: vt) hn hnd
  have hstop := manySegAux_stop (':' :: '=' :: v0 :: vt) (parseSegment_colon _)
  have hms : manySegments ((n0 :: nt) ++ ':' :: '=' :: v0 :: vt)
      = ([PathAccess.ObjectKey (String.mk (n0 :: nt))], ':' :: '=' :: v0 :: vt) := by
    rw [manySegments]
    simp only [List.cons_append, List.length_cons]
    rw [manySegAux_step _ _ _ _ hsegc, hstop]
  have hb : body ((n0 :: nt) ++ ':' :: '=' :: v0 :: vt)
      = some (RequestComponent.bodyValue
          (BodyValue.json [PathAccess.ObjectKey (String.mk (n0 :: nt))] (String.mk (v0 :: vt))), []) := by
    simp only [body, hms]
    simp [tagP]
  rw [parse_component_chars, hq, altO_none, hb, altO_some]
  simp

/-- Witness for C5 (amended), at the token `foo:=1`. -/
theorem C5_raw_json_wins_witness :
    parse_component "foo:=1" =
      Except.ok (RequestComponent.bodyValue (BodyValue.json [PathAccess.ObjectKey "foo"] "1")) :=
  C5_raw_json_wins 'f' ['o', 'o'] '1' [] (by decide) (by decide) (by decide)

/-- Claim C8 (amended): for a non-empty key containing no `=` and a non-empty
value, `key==value` parses as a query parameter with exactly that key and
value, and re-serializing as `key ++ "==" ++ value` reproduces the token.
(The empty value is excluded: the query value parser requires at least one
character, as the counterexample shows.) -/
theorem C8_query_roundtrip (k0 : Char) (kt : List Char) (v0 : Char) (vt : List Char)
    (hk : ∀ c ∈ k0 :: kt, c ≠ '=') :
    parse_component_chars ((k0 :: kt) ++ '=' :: '=' :: v0 :: vt) =
      Except.ok (RequestComponent.queryParam (String.mk (k0 :: kt)) (String.mk (v0 :: vt))) ∧
    String.mk (k0 :: kt) ++ "==" ++ String.mk (v0 :: vt) = String.mk ((k0 :: kt) ++ '=' :: '=' :: v0 :: vt) := by
  constructor
  · have hkp : ∀ c ∈ k0 :: kt, (fun c => !(c == '=')) c = true := by
      intro c hc; simp [hk c hc]
    have htw := takeWhile1_append (k0 :: kt) '=' ('=' :: v0 :: vt) (by simp) hkp (by decide)
    have hq : query_param ((k0 :: kt) ++ '=' :: '=' :: v0 :: vt)
        = some (RequestComponent.queryParam (String.mk (k0 :: kt)) (String.mk (v0 :: vt)), []) := by
      rw [query_param, htw]
      simp [tagP, takeWhile1_all (v0 :: vt) (by simp) (fun _ _ => rfl)]
    rw [parse_component_chars, hq, altO_some]
    simp
  · have h := List.append_assoc (k0 :: kt) ['=', '='] (v0 :: vt)
    calc String.mk (k0 :: kt) ++ "==" ++ String.mk (v0 :: vt)
        = String.mk (((k0 :: kt) ++ ['=', '=']) ++ (v0 :: vt)) := rfl
      _ = String.mk ((k0 :: kt) ++ '=' :: '=' :: v0 :: vt) := by rw [h]; rfl

/-- Witness for C8 (amended), at the token `a==b`. -/
theorem C8_query_roundtrip_witness :
    parse_component "a==b" = Except.ok (RequestComponent.queryParam "a" "b") ∧
    "a" ++ "==" ++ "b" = "a==b" :=
  C8_query_roundtrip 'a' [] 'b' [] (by decide)

/-! ## Claim C10: totality and panic-freedom of put_value -/

theorem put_value_objectKey_unfold (kvs : List (String × Json)) (k : String)
    (rest : List PathAccess) (v : Json) :
    put_value (Json.obj kvs) (PathAccess.ObjectKey k :: rest) v
      = match put_value ((lookupKey k kvs).getD Json.null) rest v with
        | Except.ok r => Except.ok (Json.obj (objInsert k r kvs))
        | Except.error e => Except.error e := rfl

theorem put_value_checked_objectKey_unfold (kvs : List (String × Json)) (k : String)
    (rest : List PathAccess) (v : Json) :
    put_value_checked (Json.obj kvs) (PathAccess.ObjectKey k :: rest) v
      = (match put_value_checked ((lookupKey k kvs).getD Json.null) rest v with
         | some (Except.ok r) => some (Except.ok (Json.obj (objInsert k r kvs)))
         | some (Except.error e) => some (Except.error e)
         | none => none) := rfl

theorem put_value_checked_arrayIndex_unfold (l : List Json) (i : Nat)
    (rest : List PathAccess) (v : Json) :
    put_value_checked (Json.arr l) (PathAccess.ArrayIndex i :: rest) v
      = (if i ≤ USIZE_MAX then
          match (if l.length ≤ i then l ++ List.replicate (i + 1 - l.length) Json.null else l)[i]? with
          | some el =>
            match put_value_checked el rest v with
            | some (Except.ok r) => some (Except.ok (Json.arr ((if l.length ≤ i then l ++ List.replicate (i + 1 - l.length) Json.null else l).set i r)))
            | some (Except.error e) => some (Except.error e)
            | none => none
          | none => none
        else none) := rfl

theorem put_value_arrayEnd_unfold (l : List Json) (rest : List PathAccess) (v : Json) :
    put_value (Json.arr l) (PathAccess.ArrayEnd :: rest) v
      = match put_value ((l ++ [Json.null]).getD ((l ++ [Json.null]).length - 1) Json.null) rest v with
        | Except.ok r => Except.ok (Json.arr ((l ++ [Json.null]).set ((l ++ [Json.null]).length - 1) r))
        | Except.error e => Except.error e := rfl

theorem put_value_checked_arrayEnd_unfold (l : List Json) (rest : List PathAccess) (v : Json) :
    put_value_checked (Json.arr l) (PathAccess.ArrayEnd :: rest) v
      = (match (l ++ [Json.null])[(l ++ [Json.null]).length - 1]? with
         | some el =>
           match put_value_checked el rest v with
           | some (Except.ok r) => some (Except.ok (Json.arr ((l ++ [Json.null]).set ((l ++ [Json.null]).length - 1) r)))
           | some (Except.error e) => some (Except.error e)
           | none => none
         | none => none) := rfl

theorem put_value_checked_obj (k : String) (rest : List PathAccess) (v : Json)
    (hrec : ∀ root2, put_value_checked root2 rest v = some (put_value root2 rest v))
    (kvs : List (String × Json)) :
    put_value_checked (Json.obj kvs) (PathAccess.ObjectKey k :: rest) v
      = some (put_value (Json.obj kvs) (PathAccess.ObjectKey k :: rest) v) := by
  rw [put_value_checked_objectKey_unfold, put_value_objectKey_unfold, hrec]
  cases hpv : put_value ((lookupKey k kvs).getD Json.null) rest v <;> simp [hpv]

theorem put_value_checked_arr_index (i : Nat) (rest : List PathAccess) (v : Json)
    (hi : i ≤ USIZE_MAX)
    (hrec : ∀ root2, put_value_checked root2 rest v = some (put_value root2 rest v))
    (elems : List Json) :
    put_value_checked (Json.arr elems) (PathAccess.ArrayIndex i :: rest) v
      = some (put_value (Json.arr elems) (PathAccess.ArrayIndex i :: rest) v) := by
  have hlt : i < (if elems.length ≤ i then elems ++ List.replicate (i + 1 - elems.length) Json.null else elems).length := by
    by_cases hc : elems.length ≤ i
    · rw [if_pos hc]; simp only [List.length_append, List.length_replicate]; omega
    · rw [if_neg hc]; omega
  have hsome : (if elems.length ≤ i then elems ++ List.replicate (i + 1 - elems.length) Json.null else elems)[i]?
      = some ((if elems.length ≤ i then elems ++ List.replicate (i + 1 - elems.length) Json.null else elems).getD i Json.null) := by
    rw [List.getD_eq_getElem?_getD, List.getElem?_eq_getElem hlt]
    rfl
  rw [put_value_checked_arrayIndex_unfold, put_value_arrayIndex_unfold, if_pos hi, hsome]
  simp only [hrec]
  cases hpv : put_value ((if elems.length ≤ i then elems ++ List.replicate (i + 1 - elems.length) Json.null else elems).getD i Json.null) rest v <;>
    simp [hpv]

theorem put_value_checked_arr_end (rest : List PathAccess) (v : Json)
    (hrec : ∀ root2, put_value_checked root2 rest v = some (put_value root2 rest v))
    (elems : List Json) :
    put_value_checked (Json.arr elems) (PathAccess.ArrayEnd :: rest) v
      = some (put_value (Json.arr elems) (PathAccess.ArrayEnd :: rest) v) := by
  have hlen : (elems ++ [Json.null]).length = elems.length + 1 := by simp
  have hlt : (elems ++ [Json.null]).length - 1 < (elems ++ [Json.null]).length := by omega
  have hsome : (elems ++ [Json.null])[(elems ++ [Json.null]).length - 1]?
      = some ((elems ++ [Json.null]).getD ((elems ++ [Json.null]).length - 1) Json.null) := by
    rw [List.getD_eq_getElem?_getD, List.getElem?_eq_getElem hlt]
    rfl
  rw [put_value_checked_arrayEnd_unfold, put_value_arrayEnd_unfold, hsome]
  simp only [hrec]
  cases hpv : put_value ((elems ++ [Json.null]).getD ((elems ++ [Json.null]).length - 1) Json.null) rest v <;>
    simp [hpv]

/-- Claim C10: `put_value` is total and panic-free.  With every potential
panic point (the u32-to-usize conversion and each vector index) modelled
explicitly in `put_value_checked`, no input with in-range indices reaches a
panic, and the result agrees with the pure `put_value`.  Termination is
witnessed by the structural recursion on the path. -/
theorem C10_put_value_total :
    ∀ (path : List PathAccess) (root v : Json), pathIndexOk path = true →
      put_value_checked root path v = some (put_value root path v) := by
  intro path
  induction path with
  | nil => intro root v _; rfl
  | cons a rest ih =>
    intro root v h
    match a with
    | PathAccess.ObjectKey k =>
      have h2 : pathIndexOk rest = true := by simpa [pathIndexOk] using h
      have hrec : ∀ root2, put_value_checked root2 rest v = some (put_value root2 rest v) :=
        fun root2 => ih root2 v h2
      cases root with
      | null =>
        show put_value_checked (Json.obj []) (PathAccess.ObjectKey k :: rest) v
          = some (put_value (Json.obj []) (PathAccess.ObjectKey k :: rest) v)
        exact put_value_checked_obj k rest v hrec []
      | obj kvs => exact put_value_checked_obj k rest v hrec kvs
      | bool b => rfl
      | num n => rfl
      | str s => rfl
      | arr elems => rfl
    | PathAccess.ArrayIndex i =>
      have hsplit : i ≤ USIZE_MAX ∧ pathIndexOk rest = true := by
        simpa [pathIndexOk, Bool.and_eq_true, decide_eq_true_eq] using h
      have hrec : ∀ root2, put_value_checked root2 rest v = some (put_value root2 rest v) :=
        fun root2 => ih root2 v hsplit.2
      cases root with
      | null =>
        show put_value_checked (Json.arr []) (PathAccess.ArrayIndex i :: rest) v
          = some (put_value (Json.arr []) (PathAccess.ArrayIndex i :: rest) v)
        exact put_value_checked_arr_index i rest v hsplit.1 hrec []
      | arr elems => exact put_value_checked_arr_index i rest v hsplit.1 hrec elems
      | bool b => rfl
      | num n => rfl
      | str s => rfl
      | obj kvs => rfl
    | PathAccess.ArrayEnd =>
      have h2 : pathIndexOk rest = true := by simpa [pathIndexOk] using h
      have hrec : ∀ root2, put_value_checked root2 rest v = some (put_value root2 rest v) :=
        fun root2 => ih root2 v h2
      cases root with
      | null =>
        show put_value_checked (Json.arr []) (PathAccess.ArrayEnd :: rest) v
          = some (put_value (Json.arr []) (PathAccess.ArrayEnd :: rest) v)
        exact put_value_checked_arr_end rest v hrec []
      | arr elems => exact put_value_checked_arr_end rest v hrec elems
      | bool b => rfl
      | num n => rfl
      | str s => rfl
      | obj kvs => rfl

theorem C10_put_value_total_witness :
    put_value_checked Json.null [PathAccess.ArrayIndex 1, PathAccess.ObjectKey "k"] (Json.str "x")
      = some (put_value Json.null [PathAccess.ArrayIndex 1, PathAccess.ObjectKey "k"] (Json.str "x")) :=
  C10_put_value_total [PathAccess.ArrayIndex 1, PathAccess.ObjectKey "k"] Json.null (Json.str "x")
    (by decide)

end GetRs
